import Mathlib

/-!
Verification of `gai` (an AI-powered git commit message generator) against its
natural-language specification.  The Python sources (`src/gai/cli.py`,
`src/gai/utils.py`) are shallowly embedded: strings are `List Char`, the
subprocess/HTTP side effects of the CLI are represented by an explicit event
trace, and the provider / editor are oracles supplied through an environment.
-/

/-! ### Python string primitives -/

/-- The characters matched by Python's `\s` (ASCII range), also the ones
removed by `str.strip()`. -/
def isPySpace (c : Char) : Bool :=
  c = ' ' || c = '\t' || c = '\n' || c = '\r' || c = '\x0b' || c = '\x0c'

/-- Python `str.strip()`: drop whitespace from both ends. -/
def pyStrip (s : List Char) : List Char :=
  ((s.dropWhile isPySpace).reverse.dropWhile isPySpace).reverse

/-- Python `str.lower()` (ASCII range, which covers the CLI's inputs). -/
def pyLower (s : List Char) : List Char :=
  s.map Char.toLower

/-- All suffixes of a list, longest first (used to model `re.search`, which
tries every start position). -/
def suffixes : List Char → List (List Char)
  | [] => [[]]
  | c :: cs => (c :: cs) :: suffixes cs

/-- `occursIn pat s` holds when `pat` occurs as a contiguous substring of `s`. -/
def occursIn (pat s : List Char) : Bool :=
  (suffixes s).any fun t => pat.isPrefixOf t

/-! ### `clean_commit_message` (utils.py)

The Python function applies two regex substitutions and then strips: the
first deletes every DOTALL match of an opening think tag followed lazily
by anything up to a closing think tag; the second replaces each match of
newline, optional whitespace, newline, optional whitespace, newline by two
newlines.

The first substitution removes, scanning left to right, each leftmost
opening tag together with everything up to and including the first
following closing tag (the lazy star).  The second matches at a newline
whose maximal following whitespace run contains at least two further
newlines; greedy backtracking extends the match to the last newline of
that run, and the match is replaced by two newlines. -/

def thinkOpen : List Char := "<think>".data

def thinkClose : List Char := "</think>".data

/-- Drop everything up to and including the first occurrence of `</think>`;
`none` when there is no occurrence. -/
def dropThroughClose : List Char → Option (List Char)
  | [] => none
  | c :: cs =>
    if thinkClose.isPrefixOf (c :: cs) then some (cs.drop 7)
    else dropThroughClose cs

/-- One fueled pass of the think-tag-deleting substitution.  Each step
consumes at least one character, so fuel `s.length` suffices. -/
def removeThinkAux : Nat → List Char → List Char
  | 0, s => s
  | _ + 1, [] => []
  | fuel + 1, c :: cs =>
    if thinkOpen.isPrefixOf (c :: cs) then
      match dropThroughClose (cs.drop 6) with
      | some rest => removeThinkAux fuel rest
      | none => c :: removeThinkAux fuel cs
    else c :: removeThinkAux fuel cs

def removeThink (s : List Char) : List Char :=
  removeThinkAux s.length s

/-- Length of the prefix of `run` that ends at its last newline. -/
def prefixThroughLastNL (run : List Char) : Nat :=
  run.length - (run.reverse.takeWhile fun c => !(c = '\n')).length

/-- One fueled pass of the blank-line-collapsing substitution. -/
def collapseAux : Nat → List Char → List Char
  | 0, s => s
  | _ + 1, [] => []
  | fuel + 1, c :: cs =>
    if c = '\n' then
      let run := (c :: cs).takeWhile isPySpace
      if 3 ≤ run.count '\n' then
        '\n' :: '\n' :: collapseAux fuel ((c :: cs).drop (prefixThroughLastNL run))
      else c :: collapseAux fuel cs
    else c :: collapseAux fuel cs

def collapseBlank (s : List Char) : List Char :=
  collapseAux s.length s

/-- `utils.clean_commit_message`. -/
def clean_commit_message (message : List Char) : List Char :=
  pyStrip (collapseBlank (removeThink message))

/-! ### `detect_credentials` (utils.py)

The Python function splits the diff into lines, keeps the lines starting
with a plus but not three pluses (dropping the leading plus), and for each
such line searches it with a case-insensitive regex: one of the keywords
password, pwd, secret, api_key, token, private_key, then optional
whitespace, an equals sign, optional whitespace, an optional double or
single quote, and at least eight characters drawn from ASCII letters,
digits, underscore, slash, hyphen, plus and equals, then an optional
quote.  Each hit appends a warning naming the stripped line.

Since the equals sign and the credential character class are disjoint from
regex whitespace, and the quote characters are outside the class,
backtracking never changes which characters each piece consumes, so a
match exists iff the deterministic scan below succeeds. -/

def credKeywords : List (List Char) :=
  ["password".data, "pwd".data, "secret".data, "api_key".data,
   "token".data, "private_key".data]

/-- Case-insensitive literal match: strip `pat` (ASCII-case-insensitively)
from the front of `s`, returning the remainder. -/
def icaseStrip : List Char → List Char → Option (List Char)
  | [], s => some s
  | _ :: _, [] => none
  | p :: ps, c :: cs =>
    if p.toLower = c.toLower then icaseStrip ps cs else none

/-- The character class `[a-zA-Z0-9_/\-+=]`. -/
def isCredChar (c : Char) : Bool :=
  (decide ('a' ≤ c) && decide (c ≤ 'z')) ||
  (decide ('A' ≤ c) && decide (c ≤ 'Z')) ||
  (decide ('0' ≤ c) && decide (c ≤ '9')) ||
  c = '_' || c = '/' || c = '-' || c = '+' || c = '='

/-- Match the part of the pattern after the keyword at the front of `s`:
optional whitespace, an equals sign, optional whitespace, an optional
quote, then at least eight credential-class characters (the trailing
optional quote always matches). -/
def credTail (s : List Char) : Bool :=
  match s.dropWhile isPySpace with
  | '=' :: s2 =>
    let s3 := s2.dropWhile isPySpace
    let s4 := match s3 with
      | c :: rest => if c = '"' ∨ c = '\'' then rest else s3
      | [] => s3
    decide (8 ≤ (s4.takeWhile isCredChar).length)
  | _ => false

/-- Match the full credential pattern at the front of `s`. -/
def credAt (s : List Char) : Bool :=
  credKeywords.any fun k =>
    match icaseStrip k s with
    | some rest => credTail rest
    | none => false

/-- `re.search` of the credential pattern: a match starting anywhere. -/
def hasCredMatch (s : List Char) : Bool :=
  (suffixes s).any credAt

def warnText : List Char := "Potential credentials detected in line: ".data

/-- The added lines of a unified diff: lines starting with `+` but not `+++`,
with the leading `+` removed. -/
def addedLines (diff_content : List Char) : List (List Char) :=
  ((diff_content.splitOn '\n').filter fun l =>
      ("+".data.isPrefixOf l) && !("+++".data.isPrefixOf l)).map (List.drop 1)

/-- `utils.detect_credentials`. -/
def detect_credentials (diff_content : List Char) : List (List Char) :=
  (addedLines diff_content).filterMap fun l =>
    if hasCredMatch l then some (warnText ++ pyStrip l) else none

/-! ### `.env` persistence (utils.py)

`save_provider_model_pair` replaces every line starting with `PROVIDER=` or
`#PROVIDER=` (resp. `MODEL=`/`#MODEL=`) in place and appends the missing
keys; `save_api_key_to_env` replaces only the first line starting with
`API_KEY=` or `#API_KEY=` (the Python loop `break`s) and appends when none
exists.  Both join the line list back with `'\n'`.  (The Python branches
that append a newline to `env_content` mutate a variable that is never read
afterwards, so they have no effect on the written file.) -/

def isProvLine (l : List Char) : Bool :=
  ("PROVIDER=".data.isPrefixOf l) || ("#PROVIDER=".data.isPrefixOf l)

def isModelLine (l : List Char) : Bool :=
  ("MODEL=".data.isPrefixOf l) || ("#MODEL=".data.isPrefixOf l)

def isAKLine (l : List Char) : Bool :=
  ("API_KEY=".data.isPrefixOf l) || ("#API_KEY=".data.isPrefixOf l)

/-- The in-place rewriting of one line done by `save_provider_model_pair`. -/
def pmRewrite (provider model : List Char) (l : List Char) : List Char :=
  if isProvLine l then "PROVIDER=".data ++ provider
  else if isModelLine l then "MODEL=".data ++ model
  else l

/-- `utils.save_provider_model_pair`, as a pure transformation of the `.env`
file content. -/
def save_provider_model_pair (provider model content : List Char) : List Char :=
  let lines := content.splitOn '\n'
  let newLines := lines.map (pmRewrite provider model)
  let withProv :=
    if lines.any isProvLine then newLines
    else newLines ++ ["PROVIDER=".data ++ provider]
  let withModel :=
    if lines.any isModelLine then withProv
    else withProv ++ ["MODEL=".data ++ model]
  ['\n'].intercalate withModel

/-- Replace the first line matching `isAKLine` (the Python loop breaks after
the first hit); the Bool records whether a replacement happened. -/
def replaceFirstAK (api_key : List Char) : List (List Char) → List (List Char) × Bool
  | [] => ([], false)
  | l :: ls =>
    if isAKLine l then (("API_KEY=".data ++ api_key) :: ls, true)
    else
      let r := replaceFirstAK api_key ls
      (l :: r.1, r.2)

/-- Index of the first line matching `isAKLine`. -/
def firstIdxAK : List (List Char) → Option Nat
  | [] => none
  | l :: ls => if isAKLine l then some 0 else (firstIdxAK ls).map (· + 1)

/-- `utils.save_api_key_to_env`, as a pure transformation of the `.env`
file content. -/
def save_api_key_to_env (api_key content : List Char) : List Char :=
  let lines := content.splitOn '\n'
  let r := replaceFirstAK api_key lines
  ['\n'].intercalate (if r.2 then r.1 else r.1 ++ ["API_KEY=".data ++ api_key])

/-! ### The interactive CLI (cli.py)

The CLI's side effects are captured as an event trace: provider
construction, each provider `generate_commit_message` call (recording the
diff argument it receives), and each `commit` call (recording the message
argument).  The provider's responses and the editor's buffer contents are
oracles supplied by an `Env`; user keystrokes are the list of raw `input()`
strings. -/

inductive Event where
  | setupProvider
  | providerCall (diff : List Char)
  | commitCall (msg : List Char)
deriving DecidableEq

/-- Oracles for the external world: the `n`-th provider response and the
content of the editor buffer after the `n`-th `edit_message` invocation
(`none` models the exception path of `edit_message`, which returns `None`). -/
structure Env where
  responses : Nat → List Char
  editorFiles : Nat → Option (List Char)

/-- The messages passed to `commit` in a trace. -/
def commitMsgs (events : List Event) : List (List Char) :=
  events.filterMap fun ev =>
    match ev with
    | .commitCall m => some m
    | _ => none

/-- The diff arguments of the provider calls in a trace. -/
def providerDiffs (events : List Event) : List (List Char) :=
  events.filterMap fun ev =>
    match ev with
    | .providerCall d => some d
    | _ => none

structure GenResult where
  msg : List Char
  pNext : Nat
  events : List Event
deriving DecidableEq

/-- `cli.generate_commit_message`: one provider call on `diff`, response
cleaned by `clean_commit_message`.  (The spinner thread is cosmetic and not
modelled.) -/
def generate_commit_message (env : Env) (diff : List Char) (pIdx : Nat) : GenResult :=
  ⟨clean_commit_message (env.responses pIdx), pIdx + 1, [Event.providerCall diff]⟩

structure StepResult where
  msg : List Char
  cont : Bool
  pIdx : Nat
  eIdx : Nat
  events : List Event
deriving DecidableEq

/-- `cli.handle_user_choice`.  `none` models the fall-through in the `'e'`
branch when the edited message is falsy: the Python function then returns
`None` and the caller's tuple unpacking raises.  `edit_message` returns the
editor buffer stripped (`f.read().strip()`), or `None` on an exception. -/
def handle_user_choice (env : Env) (choice message diff : List Char)
    (pIdx eIdx : Nat) : Option StepResult :=
  if choice = "a".data then
    some ⟨message, false, pIdx, eIdx, [Event.commitCall message]⟩
  else if choice = "e".data then
    match env.editorFiles eIdx with
    | some buf =>
      let edited := pyStrip buf
      if edited = [] then none
      else some ⟨edited, false, pIdx, eIdx + 1, [Event.commitCall edited]⟩
    | none => none
  else if choice = "r".data then
    let g := generate_commit_message env diff pIdx
    some ⟨g.msg, true, g.pNext, eIdx, g.events⟩
  else if choice = "q".data then
    some ⟨message, false, pIdx, eIdx, []⟩
  else
    some ⟨message, true, pIdx, eIdx, []⟩

inductive LoopEnd where
  | finished (byChoice : List Char)
  | crashed
  | outOfInput
deriving DecidableEq

structure LoopResult where
  msg : List Char
  events : List Event
  ending : LoopEnd
  pIdx : Nat
  eIdx : Nat
deriving DecidableEq

/-- The `while True` interaction loop of `cli.main`: read one raw input,
lower-case it, dispatch through `handle_user_choice`, stop when
`should_continue` is false.  `outOfInput` marks a run whose input list is
exhausted while the loop would keep prompting. -/
def runLoop (env : Env) (diff : List Char) :
    List (List Char) → List Char → Nat → Nat → LoopResult
  | [], msg, p, e => ⟨msg, [], .outOfInput, p, e⟩
  | raw :: rest, msg, p, e =>
    let choice := pyLower raw
    match handle_user_choice env choice msg diff p e with
    | none => ⟨msg, [], .crashed, p, e⟩
    | some st =>
      if st.cont then
        let r := runLoop env diff rest st.msg st.pIdx st.eIdx
        ⟨r.msg, st.events ++ r.events, r.ending, r.pIdx, r.eIdx⟩
      else ⟨st.msg, st.events, .finished choice, st.pIdx, st.eIdx⟩

inductive Outcome where
  | exit (code : Nat)
  | crashed
  | blocked
deriving DecidableEq

structure MainResult where
  outcome : Outcome
  events : List Event
  ending : Option LoopEnd
deriving DecidableEq

/-- How `cli.main` terminates once the loop ends: a finished loop lets
`main` return normally (process exit code 0); a crash or exhausted input
never reaches that point. -/
def outcomeOfEnding : LoopEnd → Outcome
  | .finished _ => .exit 0
  | .crashed => .crashed
  | .outOfInput => .blocked

/-- `cli.main` on the single-commit path (`--multi-commit` not given):
git-repository check, staged-diff fetch (the diff is the `diff` argument),
empty-diff early exit, credential scan with the user's continue/abort answer,
provider setup, initial generation, then the interaction loop.  A loop that
finishes (by apply/edit/quit) lets `main` return, so the process exits 0. -/
def mainRun (env : Env) (isGitRepo : Bool) (diff : List Char)
    (credAnswer : Bool) (inputs : List (List Char)) : MainResult :=
  if !isGitRepo then ⟨.exit 1, [], none⟩
  else if diff = [] then ⟨.exit 0, [], none⟩
  else if detect_credentials diff ≠ [] ∧ credAnswer = false then ⟨.exit 0, [], none⟩
  else
    let g := generate_commit_message env diff 0
    let r := runLoop env diff inputs g.msg g.pNext 0
    ⟨outcomeOfEnding r.ending, Event.setupProvider :: g.events ++ r.events,
     some r.ending⟩

/-- A concrete environment whose provider always answers with an ordinary
commit message; used to instantiate universally quantified theorems. -/
def featEnv : Env :=
  ⟨fun _ => "feat: x".data, fun _ => none⟩

/-- A concrete environment whose provider answers with a reasoning trace and
no visible message at all: the cleaned response is empty. -/
def thinkOnlyEnv : Env :=
  ⟨fun _ => "<think>x</think>".data, fun _ => none⟩

/-! ### The multi-commit workflow (cli.py)

With the multi-commit flag, `main` calls `run_multi_commit_workflow`
instead of entering the single-commit loop.  That workflow asks the
provider for suggested commit splits (modelled as the `splits` list of
their descriptions).  With no splits it falls back to one generation plus
the standard apply/edit/regenerate/quit loop; otherwise a split/summarize/
quit selection loop runs (input lower-cased, invalid input re-prompts).

The summarize choice again performs one generation and runs the standard
loop (`handle_summarize_commit`, cli.py:226-242).

The split choice (`handle_split_commits`, cli.py:199-224) never reaches
its `commit` call: each iteration temporarily installs
`lambda diff: original_generate_commit_message(prompt_for_llm)` as the
provider method (cli.py:213) and then calls `cli.generate_commit_message`,
which invokes the method as
`provider.generate_commit_message(staged_diff, oneline=oneline)`
(cli.py:76).  The installed lambda accepts a single positional argument
and no keyword, so this call raises TypeError for the keyword argument
before the lambda body (and hence the provider, and hence `commit`) is
ever reached; the exception propagates out of `main`.  With at least one
suggested split the first iteration therefore crashes with no provider
call and no commit. -/

structure MultiResult where
  events : List Event
  ending : LoopEnd
deriving DecidableEq

/-- `cli.handle_split_commits` as observed through the event trace: with no
suggested splits the loop body never runs (the function returns normally);
with at least one, the first iteration raises TypeError as described above
— no event is emitted either way.  The Bool records normal completion. -/
def handle_split_commits_run (splits : List (List Char)) : List Event × Bool :=
  match splits with
  | [] => ([], true)
  | _ :: _ => ([], false)

/-- `cli.handle_summarize_commit`, and identically the no-splits fallback of
`run_multi_commit_workflow`: one generation on the full staged diff, then
the standard interaction loop, starting from provider index 0 and editor
index 0 (no earlier generation happens on the multi-commit path). -/
def summarize_run (env : Env) (diff : List Char) (inputs : List (List Char)) :
    MultiResult :=
  ⟨Event.providerCall diff ::
     (runLoop env diff inputs (clean_commit_message (env.responses 0)) 1 0).events,
   (runLoop env diff inputs (clean_commit_message (env.responses 0)) 1 0).ending⟩

/-- The split/summarize/quit selection loop of `run_multi_commit_workflow`
(cli.py:182-197): reads one input, lower-cases it, dispatches, re-prompts
on anything else. -/
def multiSelect (env : Env) (diff : List Char) (splits : List (List Char)) :
    List (List Char) → MultiResult
  | [] => ⟨[], .outOfInput⟩
  | raw :: rest =>
    let choice := pyLower raw
    if choice = "s".data then
      let h := handle_split_commits_run splits
      if h.2 then ⟨h.1, .finished "s".data⟩ else ⟨h.1, .crashed⟩
    else if choice = "u".data then summarize_run env diff rest
    else if choice = "q".data then ⟨[], .finished "q".data⟩
    else multiSelect env diff splits rest

/-- `cli.run_multi_commit_workflow`: fall back to a single suggestion when
the provider proposes no splits, otherwise run the selection loop. -/
def runMultiCommit (env : Env) (diff : List Char) (splits : List (List Char))
    (inputs : List (List Char)) : MultiResult :=
  if splits = [] then summarize_run env diff inputs
  else multiSelect env diff splits inputs

/-- `cli.main` including the multi-commit flag: the git-repository check,
empty-diff exit and credential scan are common to both modes; with the
flag set, provider setup is followed by `run_multi_commit_workflow`,
otherwise by the single-commit path of `mainRun`. -/
def mainRunFull (env : Env) (isGitRepo : Bool) (diff : List Char)
    (credAnswer : Bool) (multiCommit : Bool) (splits : List (List Char))
    (inputs : List (List Char)) : MainResult :=
  if multiCommit then
    if !isGitRepo then ⟨.exit 1, [], none⟩
    else if diff = [] then ⟨.exit 0, [], none⟩
    else if detect_credentials diff ≠ [] ∧ credAnswer = false then ⟨.exit 0, [], none⟩
    else
      let r := runMultiCommit env diff splits inputs
      ⟨outcomeOfEnding r.ending, Event.setupProvider :: r.events, some r.ending⟩
  else mainRun env isGitRepo diff credAnswer inputs

/-! ### Helper lemmas -/

/-- `noBlankRun s` states that no position of `s` starts a whitespace run
containing three or more newlines, i.e. the blank-line-collapsing
substitution has nothing to match. -/
def noBlankRun (s : List Char) : Bool :=
  (suffixes s).all fun t => decide ((t.takeWhile isPySpace).count '\n' ≤ 2)

theorem occursIn_cons (pat : List Char) (c : Char) (cs : List Char) :
    occursIn pat (c :: cs) = (pat.isPrefixOf (c :: cs) || occursIn pat cs) := rfl

theorem removeThinkAux_of_not_occurs (fuel : Nat) :
    ∀ s : List Char, occursIn thinkOpen s = false → removeThinkAux fuel s = s := by
  induction fuel with
  | zero => intro s _; rfl
  | succ n ih =>
    intro s h
    cases s with
    | nil => rfl
    | cons c cs =>
      rw [occursIn_cons, Bool.or_eq_false_iff] at h
      simp only [removeThinkAux, h.1, Bool.false_eq_true, if_false]
      exact congrArg (c :: ·) (ih cs h.2)

theorem removeThink_of_not_occurs {s : List Char} (h : occursIn thinkOpen s = false) :
    removeThink s = s :=
  removeThinkAux_of_not_occurs s.length s h

theorem noBlankRun_cons {c : Char} {cs : List Char} (h : noBlankRun (c :: cs) = true) :
    ((c :: cs).takeWhile isPySpace).count '\n' ≤ 2 ∧ noBlankRun cs = true := by
  rw [noBlankRun] at h
  rw [show suffixes (c :: cs) = (c :: cs) :: suffixes cs from rfl, List.all_cons,
    Bool.and_eq_true] at h
  exact ⟨of_decide_eq_true h.1, h.2⟩

theorem collapseAux_of_noBlankRun (fuel : Nat) :
    ∀ s : List Char, noBlankRun s = true → collapseAux fuel s = s := by
  induction fuel with
  | zero => intro s _; rfl
  | succ n ih =>
    intro s h
    cases s with
    | nil => rfl
    | cons c cs =>
      obtain ⟨h1, h2⟩ := noBlankRun_cons h
      have h3 : ¬ 3 ≤ ((c :: cs).takeWhile isPySpace).count '\n' := by omega
      by_cases hc : c = '\n'
      · subst hc
        simp only [collapseAux, if_pos rfl, if_neg h3]
        exact congrArg ('\n' :: ·) (ih cs h2)
      · simp only [collapseAux, if_neg hc]
        exact congrArg (c :: ·) (ih cs h2)

theorem collapseBlank_of_noBlankRun {s : List Char} (h : noBlankRun s = true) :
    collapseBlank s = s :=
  collapseAux_of_noBlankRun s.length s h

theorem forall_mem_splitOnP {α : Type} (p : α → Bool) :
    ∀ (xs : List α), ∀ l ∈ xs.splitOnP p, ∀ a ∈ l, p a = false := by
  intro xs
  induction xs with
  | nil =>
    intro l hl a ha
    rw [List.splitOnP_nil, List.mem_singleton] at hl
    subst hl
    simp at ha
  | cons x xs ih =>
    intro l hl a ha
    rw [List.splitOnP_cons] at hl
    by_cases hx : p x = true
    · rw [if_pos hx] at hl
      rcases List.mem_cons.mp hl with h | h
      · subst h; simp at ha
      · exact ih l h a ha
    · rw [if_neg hx] at hl
      cases hsp : xs.splitOnP p with
      | nil => exact absurd hsp (List.splitOnP_ne_nil p xs)
      | cons h0 t =>
        rw [hsp, List.modifyHead_cons] at hl
        rcases List.mem_cons.mp hl with h | h
        · subst h
          rcases List.mem_cons.mp ha with h | h
          · subst h; exact Bool.eq_false_iff.mpr hx
          · exact ih h0 (by rw [hsp]; exact List.mem_cons_self _ _) a h
        · exact ih l (by rw [hsp]; exact List.mem_cons_of_mem _ h) a ha

theorem not_mem_of_mem_splitOn {xs l : List Char} {x : Char}
    (hl : l ∈ xs.splitOn x) : x ∉ l := by
  intro hmem
  have h := forall_mem_splitOnP (fun a => a == x) xs l (by simpa [List.splitOn] using hl) x hmem
  simp at h

theorem splitOn_ne_nil (xs : List Char) (x : Char) : xs.splitOn x ≠ [] := by
  simpa [List.splitOn] using List.splitOnP_ne_nil (fun a => a == x) xs

theorem zip_map_append_all {α : Type} (f : α → α) (P : α × α → Bool)
    (app : List α) (h : ∀ o, P (o, f o) = true) :
    ∀ l : List α, ((l.zip (l.map f ++ app)).all P) = true := by
  intro l
  induction l with
  | nil => rfl
  | cons x xs ih =>
    rw [List.map_cons, List.cons_append, List.zip_cons_cons, List.all_cons, h x,
      Bool.true_and]
    exact ih

theorem replaceFirstAK_length (k : List Char) :
    ∀ ls, (replaceFirstAK k ls).1.length = ls.length := by
  intro ls
  induction ls with
  | nil => rfl
  | cons l t ih =>
    cases hak : isAKLine l <;>
      simp [replaceFirstAK, hak, ih]

theorem replaceFirstAK_mem (k : List Char) :
    ∀ ls l, l ∈ (replaceFirstAK k ls).1 → l = "API_KEY=".data ++ k ∨ l ∈ ls := by
  intro ls
  induction ls with
  | nil => intro l h; simp [replaceFirstAK] at h
  | cons x t ih =>
    intro l h
    cases hak : isAKLine x
    · rw [replaceFirstAK, if_neg (by simp [hak])] at h
      rcases List.mem_cons.mp h with h | h
      · exact Or.inr (h ▸ List.mem_cons_self _ _)
      · rcases ih l h with h | h
        · exact Or.inl h
        · exact Or.inr (List.mem_cons_of_mem _ h)
    · rw [replaceFirstAK, if_pos (by simp [hak])] at h
      rcases List.mem_cons.mp h with h | h
      · exact Or.inl h
      · exact Or.inr (List.mem_cons_of_mem _ h)

theorem replaceFirstAK_getElem (k : List Char) :
    ∀ (ls : List (List Char)) (i : Nat), firstIdxAK ls ≠ some i →
      (replaceFirstAK k ls).1[i]? = ls[i]? := by
  intro ls
  induction ls with
  | nil => intro i _; rfl
  | cons l t ih =>
    intro i h
    cases hak : isAKLine l
    · cases i with
      | zero => simp [replaceFirstAK, hak]
      | succ j =>
        have h' : firstIdxAK t ≠ some j := by
          intro hj
          exact h (by simp [firstIdxAK, hak, hj])
        simpa [replaceFirstAK, hak] using ih j h'
    · have hi : i ≠ 0 := by
        intro h0
        subst h0
        exact h (by simp [firstIdxAK, hak])
      obtain ⟨j, rfl⟩ : ∃ j, i = j + 1 := ⟨i - 1, by omega⟩
      simp [replaceFirstAK, hak]

theorem ne_ea : ("e".data : List Char) ≠ "a".data := by decide

theorem ne_ra : ("r".data : List Char) ≠ "a".data := by decide

theorem ne_re : ("r".data : List Char) ≠ "e".data := by decide

theorem ne_qa : ("q".data : List Char) ≠ "a".data := by decide

theorem ne_qe : ("q".data : List Char) ≠ "e".data := by decide

theorem ne_qr : ("q".data : List Char) ≠ "r".data := by decide

theorem runLoop_cons_a (env : Env) (diff raw : List Char) (rest : List (List Char))
    (msg : List Char) (p e : Nat) (h : pyLower raw = "a".data) :
    runLoop env diff (raw :: rest) msg p e =
      ⟨msg, [Event.commitCall msg], .finished "a".data, p, e⟩ := by
  simp [runLoop, h, handle_user_choice]

theorem runLoop_cons_e_none (env : Env) (diff raw : List Char) (rest : List (List Char))
    (msg : List Char) (p e : Nat) (h : pyLower raw = "e".data)
    (hbuf : env.editorFiles e = none) :
    runLoop env diff (raw :: rest) msg p e = ⟨msg, [], .crashed, p, e⟩ := by
  simp [runLoop, h, handle_user_choice, hbuf, ne_ea]

theorem runLoop_cons_e_empty (env : Env) (diff raw : List Char) (rest : List (List Char))
    (msg : List Char) (p e : Nat) (buf : List Char) (h : pyLower raw = "e".data)
    (hbuf : env.editorFiles e = some buf) (hed : pyStrip buf = []) :
    runLoop env diff (raw :: rest) msg p e = ⟨msg, [], .crashed, p, e⟩ := by
  simp [runLoop, h, handle_user_choice, hbuf, hed, ne_ea]

theorem runLoop_cons_e_commit (env : Env) (diff raw : List Char) (rest : List (List Char))
    (msg : List Char) (p e : Nat) (buf : List Char) (h : pyLower raw = "e".data)
    (hbuf : env.editorFiles e = some buf) (hed : ¬ pyStrip buf = []) :
    runLoop env diff (raw :: rest) msg p e =
      ⟨pyStrip buf, [Event.commitCall (pyStrip buf)], .finished "e".data, p, e + 1⟩ := by
  simp [runLoop, h, handle_user_choice, hbuf, hed, ne_ea]

theorem runLoop_cons_r (env : Env) (diff raw : List Char) (rest : List (List Char))
    (msg : List Char) (p e : Nat) (h : pyLower raw = "r".data) :
    runLoop env diff (raw :: rest) msg p e =
      ⟨(runLoop env diff rest (clean_commit_message (env.responses p)) (p + 1) e).msg,
       Event.providerCall diff ::
         (runLoop env diff rest (clean_commit_message (env.responses p)) (p + 1) e).events,
       (runLoop env diff rest (clean_commit_message (env.responses p)) (p + 1) e).ending,
       (runLoop env diff rest (clean_commit_message (env.responses p)) (p + 1) e).pIdx,
       (runLoop env diff rest (clean_commit_message (env.responses p)) (p + 1) e).eIdx⟩ := by
  simp [runLoop, h, handle_user_choice, generate_commit_message, ne_ra, ne_re]

theorem runLoop_cons_q (env : Env) (diff raw : List Char) (rest : List (List Char))
    (msg : List Char) (p e : Nat) (h : pyLower raw = "q".data) :
    runLoop env diff (raw :: rest) msg p e = ⟨msg, [], .finished "q".data, p, e⟩ := by
  simp [runLoop, h, handle_user_choice, ne_qa, ne_qe, ne_qr]

theorem runLoop_cons_invalid (env : Env) (diff raw : List Char) (rest : List (List Char))
    (msg : List Char) (p e : Nat)
    (h1 : ¬ pyLower raw = "a".data) (h2 : ¬ pyLower raw = "e".data)
    (h3 : ¬ pyLower raw = "r".data) (h4 : ¬ pyLower raw = "q".data) :
    runLoop env diff (raw :: rest) msg p e = runLoop env diff rest msg p e := by
  simp [runLoop, handle_user_choice, h1, h2, h3, h4]

theorem commitMsgs_providerCall_cons (d : List Char) (evs : List Event) :
    commitMsgs (Event.providerCall d :: evs) = commitMsgs evs := by
  simp [commitMsgs]

/-- Every provider call issued during the interaction loop receives the
diff fetched at process start, unchanged. -/
theorem runLoop_providerDiffs (env : Env) (diff : List Char) :
    ∀ (inputs : List (List Char)) (msg : List Char) (p e : Nat),
      ((providerDiffs (runLoop env diff inputs msg p e).events).all
        fun d => decide (d = diff)) = true := by
  intro inputs
  induction inputs with
  | nil => intro msg p e; rfl
  | cons raw rest ih =>
    intro msg p e
    by_cases h1 : pyLower raw = "a".data
    · rw [runLoop_cons_a env diff raw rest msg p e h1]
      simp [providerDiffs]
    by_cases h2 : pyLower raw = "e".data
    · cases hbuf : env.editorFiles e with
      | none =>
        rw [runLoop_cons_e_none env diff raw rest msg p e h2 hbuf]
        rfl
      | some buf =>
        by_cases hed : pyStrip buf = []
        · rw [runLoop_cons_e_empty env diff raw rest msg p e buf h2 hbuf hed]
          rfl
        · rw [runLoop_cons_e_commit env diff raw rest msg p e buf h2 hbuf hed]
          simp [providerDiffs]
    by_cases h3 : pyLower raw = "r".data
    · rw [runLoop_cons_r env diff raw rest msg p e h3]
      simp only [providerDiffs, List.filterMap_cons]
      simp only [providerDiffs] at ih
      simp [ih]
    by_cases h4 : pyLower raw = "q".data
    · rw [runLoop_cons_q env diff raw rest msg p e h4]
      rfl
    · rw [runLoop_cons_invalid env diff raw rest msg p e h1 h2 h3 h4]
      exact ih msg p e

/-- A loop that ends with the quit choice never called `commit`. -/
theorem runLoop_quit_no_commits (env : Env) (diff : List Char) :
    ∀ (inputs : List (List Char)) (msg : List Char) (p e : Nat),
      (runLoop env diff inputs msg p e).ending = LoopEnd.finished "q".data →
      commitMsgs (runLoop env diff inputs msg p e).events = [] := by
  intro inputs
  induction inputs with
  | nil => intro msg p e h; simp [runLoop] at h
  | cons raw rest ih =>
    intro msg p e h
    by_cases h1 : pyLower raw = "a".data
    · rw [runLoop_cons_a env diff raw rest msg p e h1] at h ⊢
      exact absurd h (by simp)
    by_cases h2 : pyLower raw = "e".data
    · cases hbuf : env.editorFiles e with
      | none =>
        rw [runLoop_cons_e_none env diff raw rest msg p e h2 hbuf] at h
        simp at h
      | some buf =>
        by_cases hed : pyStrip buf = []
        · rw [runLoop_cons_e_empty env diff raw rest msg p e buf h2 hbuf hed] at h
          simp at h
        · rw [runLoop_cons_e_commit env diff raw rest msg p e buf h2 hbuf hed] at h
          exact absurd h (by simp)
    by_cases h3 : pyLower raw = "r".data
    · rw [runLoop_cons_r env diff raw rest msg p e h3] at h ⊢
      rw [commitMsgs_providerCall_cons]
      exact ih _ _ _ h
    by_cases h4 : pyLower raw = "q".data
    · rw [runLoop_cons_q env diff raw rest msg p e h4]
      rfl
    · rw [runLoop_cons_invalid env diff raw rest msg p e h1 h2 h3 h4] at h ⊢
      exact ih msg p e h

/-- If every cleaned provider response is non-empty, every message the loop
passes to `commit` is non-empty (the edit path checks non-emptiness itself;
the apply path commits the current suggestion, which stays non-empty). -/
theorem runLoop_commits_nonempty (env : Env) (diff : List Char)
    (H : ∀ n, clean_commit_message (env.responses n) ≠ []) :
    ∀ (inputs : List (List Char)) (msg : List Char) (p e : Nat), msg ≠ [] →
      ((commitMsgs (runLoop env diff inputs msg p e).events).all
        fun m => decide (m ≠ [])) = true := by
  intro inputs
  induction inputs with
  | nil => intro msg p e _; rfl
  | cons raw rest ih =>
    intro msg p e hmsg
    by_cases h1 : pyLower raw = "a".data
    · rw [runLoop_cons_a env diff raw rest msg p e h1]
      simp [commitMsgs, hmsg]
    by_cases h2 : pyLower raw = "e".data
    · cases hbuf : env.editorFiles e with
      | none =>
        rw [runLoop_cons_e_none env diff raw rest msg p e h2 hbuf]
        rfl
      | some buf =>
        by_cases hed : pyStrip buf = []
        · rw [runLoop_cons_e_empty env diff raw rest msg p e buf h2 hbuf hed]
          rfl
        · rw [runLoop_cons_e_commit env diff raw rest msg p e buf h2 hbuf hed]
          simp [commitMsgs, hed]
    by_cases h3 : pyLower raw = "r".data
    · rw [runLoop_cons_r env diff raw rest msg p e h3]
      rw [commitMsgs_providerCall_cons]
      exact ih _ _ _ (H p)
    by_cases h4 : pyLower raw = "q".data
    · rw [runLoop_cons_q env diff raw rest msg p e h4]
      rfl
    · rw [runLoop_cons_invalid env diff raw rest msg p e h1 h2 h3 h4]
      exact ih msg p e hmsg

theorem not_newline_mem_provLine {provider : List Char} (hp : '\n' ∉ provider) :
    ('\n' : Char) ∉ "PROVIDER=".data ++ provider := by
  intro h
  rcases List.mem_append.mp h with h | h
  · exact absurd h (by decide)
  · exact hp h

theorem not_newline_mem_modelLine {model : List Char} (hm : '\n' ∉ model) :
    ('\n' : Char) ∉ "MODEL=".data ++ model := by
  intro h
  rcases List.mem_append.mp h with h | h
  · exact absurd h (by decide)
  · exact hm h

theorem not_newline_mem_akLine {api_key : List Char} (hk : '\n' ∉ api_key) :
    ('\n' : Char) ∉ "API_KEY=".data ++ api_key := by
  intro h
  rcases List.mem_append.mp h with h | h
  · exact absurd h (by decide)
  · exact hk h

/-- Splitting the file written by `save_provider_model_pair` back into lines
yields the rewritten original lines followed by the appended key lines. -/
theorem save_pm_lines (provider model content : List Char)
    (hp : '\n' ∉ provider) (hm : '\n' ∉ model) :
    ∃ app, (save_provider_model_pair provider model content).splitOn '\n' =
      (content.splitOn '\n').map (pmRewrite provider model) ++ app := by
  have hchunks : ∀ l ∈ content.splitOn '\n', ('\n' : Char) ∉ l :=
    fun l hl => not_mem_of_mem_splitOn hl
  have hmap : ∀ l ∈ (content.splitOn '\n').map (pmRewrite provider model),
      ('\n' : Char) ∉ l := by
    intro l hl
    obtain ⟨o, ho, rfl⟩ := List.mem_map.mp hl
    unfold pmRewrite
    split_ifs
    · exact not_newline_mem_provLine hp
    · exact not_newline_mem_modelLine hm
    · exact hchunks o ho
  have holdne : content.splitOn '\n' ≠ [] := splitOn_ne_nil content '\n'
  have hmapne : (content.splitOn '\n').map (pmRewrite provider model) ≠ [] := by
    simp [holdne]
  unfold save_provider_model_pair
  by_cases h1 : (content.splitOn '\n').any isProvLine <;>
    by_cases h2 : (content.splitOn '\n').any isModelLine <;>
      simp only [h1, h2, if_true, if_false, Bool.false_eq_true]
  · exact ⟨[], by
      rw [List.splitOn_intercalate _ '\n' hmap hmapne, List.append_nil]⟩
  · refine ⟨["MODEL=".data ++ model], ?_⟩
    rw [List.splitOn_intercalate _ '\n' ?_ (by simp [hmapne])]
    intro l hl
    rcases List.mem_append.mp hl with h | h
    · exact hmap l h
    · rw [List.mem_singleton.mp h]
      exact not_newline_mem_modelLine hm
  · refine ⟨["PROVIDER=".data ++ provider], ?_⟩
    rw [List.splitOn_intercalate _ '\n' ?_ (by simp [hmapne])]
    intro l hl
    rcases List.mem_append.mp hl with h | h
    · exact hmap l h
    · rw [List.mem_singleton.mp h]
      exact not_newline_mem_provLine hp
  · refine ⟨["PROVIDER=".data ++ provider] ++ ["MODEL=".data ++ model], ?_⟩
    rw [← List.append_assoc]
    rw [List.splitOn_intercalate _ '\n' ?_ (by simp [hmapne])]
    intro l hl
    rcases List.mem_append.mp hl with h | h
    · rcases List.mem_append.mp h with h | h
      · exact hmap l h
      · rw [List.mem_singleton.mp h]
        exact not_newline_mem_provLine hp
    · rw [List.mem_singleton.mp h]
      exact not_newline_mem_modelLine hm

/-- Splitting the file written by `save_api_key_to_env` back into lines
yields the first-match-replaced original lines, possibly followed by the
appended key line. -/
theorem save_ak_lines (api_key content : List Char) (hk : '\n' ∉ api_key) :
    ∃ app, (save_api_key_to_env api_key content).splitOn '\n' =
      (replaceFirstAK api_key (content.splitOn '\n')).1 ++ app := by
  have hchunks : ∀ l ∈ content.splitOn '\n', ('\n' : Char) ∉ l :=
    fun l hl => not_mem_of_mem_splitOn hl
  have hrep : ∀ l ∈ (replaceFirstAK api_key (content.splitOn '\n')).1,
      ('\n' : Char) ∉ l := by
    intro l hl
    rcases replaceFirstAK_mem api_key (content.splitOn '\n') l hl with h | h
    · rw [h]; exact not_newline_mem_akLine hk
    · exact hchunks l h
  have hrepne : (replaceFirstAK api_key (content.splitOn '\n')).1 ≠ [] := by
    intro h
    have := replaceFirstAK_length api_key (content.splitOn '\n')
    rw [h] at this
    exact splitOn_ne_nil content '\n' (List.length_eq_zero.mp this.symm)
  unfold save_api_key_to_env
  by_cases h1 : (replaceFirstAK api_key (content.splitOn '\n')).2 <;>
    simp only [h1, if_true, if_false, Bool.false_eq_true]
  · exact ⟨[], by
      rw [List.splitOn_intercalate _ '\n' hrep hrepne, List.append_nil]⟩
  · refine ⟨["API_KEY=".data ++ api_key], ?_⟩
    rw [List.splitOn_intercalate _ '\n' ?_ (by simp [hrepne])]
    intro l hl
    rcases List.mem_append.mp hl with h | h
    · exact hrep l h
    · rw [List.mem_singleton.mp h]
      exact not_newline_mem_akLine hk

/-- `mainRun` on the path that reaches the interaction loop. -/
theorem mainRun_loop_case (env : Env) (diff : List Char) (cred : Bool)
    (inputs : List (List Char)) (hdiff : diff ≠ [])
    (hcred : ¬ (detect_credentials diff ≠ [] ∧ cred = false)) :
    mainRun env true diff cred inputs =
      ⟨outcomeOfEnding
         (runLoop env diff inputs (clean_commit_message (env.responses 0)) 1 0).ending,
       Event.setupProvider :: Event.providerCall diff ::
         (runLoop env diff inputs (clean_commit_message (env.responses 0)) 1 0).events,
       some (runLoop env diff inputs (clean_commit_message (env.responses 0)) 1 0).ending⟩ := by
  simp [mainRun, hdiff, hcred, generate_commit_message]

/-- If every cleaned provider response is non-empty, every message `main`
ever passes to `commit` is non-empty. -/
theorem mainRun_commits_nonempty (env : Env) (g : Bool) (diff : List Char)
    (cred : Bool) (inputs : List (List Char))
    (H : ∀ n, clean_commit_message (env.responses n) ≠ []) :
    ((commitMsgs (mainRun env g diff cred inputs).events).all
      fun m => decide (m ≠ [])) = true := by
  cases g with
  | false => simp [mainRun, commitMsgs]
  | true =>
    by_cases hdiff : diff = []
    · simp [mainRun, hdiff, commitMsgs]
    by_cases hcred : detect_credentials diff ≠ [] ∧ cred = false
    · simp [mainRun, hdiff, hcred, commitMsgs]
    · rw [mainRun_loop_case env diff cred inputs hdiff hcred]
      have h := runLoop_commits_nonempty env diff H inputs
        (clean_commit_message (env.responses 0)) 1 0 (H 0)
      simpa [commitMsgs] using h

/-- If `main`'s loop ends with the quit choice, the process exits 0 and no
commit was ever invoked. -/
theorem mainRun_quit (env : Env) (g : Bool) (diff : List Char) (cred : Bool)
    (inputs : List (List Char))
    (h : (mainRun env g diff cred inputs).ending = some (LoopEnd.finished "q".data)) :
    (mainRun env g diff cred inputs).outcome = Outcome.exit 0 ∧
      commitMsgs (mainRun env g diff cred inputs).events = [] := by
  cases g with
  | false => simp [mainRun] at h
  | true =>
    by_cases hdiff : diff = []
    · simp [mainRun, hdiff] at h
    by_cases hcred : detect_credentials diff ≠ [] ∧ cred = false
    · simp [mainRun, hdiff, hcred] at h
    · rw [mainRun_loop_case env diff cred inputs hdiff hcred] at h ⊢
      have hend : (runLoop env diff inputs
          (clean_commit_message (env.responses 0)) 1 0).ending =
          LoopEnd.finished "q".data := by
        simpa using h
      refine ⟨?_, ?_⟩
      · show outcomeOfEnding _ = Outcome.exit 0
        rw [hend]
        rfl
      · show commitMsgs (Event.setupProvider :: Event.providerCall diff :: _) = []
        have h0 := runLoop_quit_no_commits env diff inputs
          (clean_commit_message (env.responses 0)) 1 0 hend
        simpa [commitMsgs] using h0


theorem handle_split_commits_run_events (splits : List (List Char)) :
    (handle_split_commits_run splits).1 = [] := by
  cases splits <;> rfl

/-- The summarize (and no-splits fallback) path commits only non-empty
messages when every cleaned provider response is non-empty. -/
theorem summarize_commits_nonempty (env : Env) (diff : List Char)
    (H : ∀ n, clean_commit_message (env.responses n) ≠ [])
    (inputs : List (List Char)) :
    ((commitMsgs (summarize_run env diff inputs).events).all
      fun m => decide (m ≠ [])) = true := by
  have h := runLoop_commits_nonempty env diff H inputs
    (clean_commit_message (env.responses 0)) 1 0 (H 0)
  simpa [summarize_run, commitMsgs_providerCall_cons] using h

/-- The split/summarize/quit selection loop commits only non-empty messages
when every cleaned provider response is non-empty. -/
theorem multiSelect_commits_nonempty (env : Env) (diff : List Char)
    (splits : List (List Char))
    (H : ∀ n, clean_commit_message (env.responses n) ≠ []) :
    ∀ inputs : List (List Char),
      ((commitMsgs (multiSelect env diff splits inputs).events).all
        fun m => decide (m ≠ [])) = true := by
  intro inputs
  induction inputs with
  | nil => rfl
  | cons raw rest ih =>
    by_cases hs : pyLower raw = "s".data
    · by_cases hc : (handle_split_commits_run splits).2 = true <;>
        simp [multiSelect, hs, hc, handle_split_commits_run_events, commitMsgs]
    by_cases hu : pyLower raw = "u".data
    · have h := summarize_commits_nonempty env diff H rest
      simpa [multiSelect, hs, hu] using h
    by_cases hq : pyLower raw = "q".data
    · simp [multiSelect, hs, hu, hq, commitMsgs]
    · simpa [multiSelect, hs, hu, hq] using ih

/-- The whole multi-commit workflow commits only non-empty messages when
every cleaned provider response is non-empty. -/
theorem runMultiCommit_commits_nonempty (env : Env) (diff : List Char)
    (splits inputs : List (List Char))
    (H : ∀ n, clean_commit_message (env.responses n) ≠ []) :
    ((commitMsgs (runMultiCommit env diff splits inputs).events).all
      fun m => decide (m ≠ [])) = true := by
  unfold runMultiCommit
  by_cases hsp : splits = []
  · rw [if_pos hsp]
    exact summarize_commits_nonempty env diff H inputs
  · rw [if_neg hsp]
    exact multiSelect_commits_nonempty env diff splits H inputs

/-! ### The claims -/

/-- Claim C1, counterexample: when the provider's response is a pure
reasoning trace, the cleaned suggestion is the empty string, and the apply
choice passes that empty string to `commit` — the commit operation is
invoked with an empty message, refuting the claimed invariant. -/
theorem commit_invoked_with_empty_message :
    commitMsgs (mainRun thinkOnlyEnv true "+x".data true ["a".data]).events
      = [[]] := by decide

/-- Claim C1 (amended): in every execution of the tool — single-commit or
multi-commit — the edit choice only ever invokes the commit operation with
a non-empty message, and the apply choice (in the single-commit loop and
in the multi-commit fallback and summarize loops) invokes it with exactly
the currently displayed suggestion, which is the cleaned provider response
and may be empty; the multi-commit split path never reaches its commit
call (its first iteration raises TypeError before generating).  Hence
whenever every cleaned provider response is non-empty, every message
passed to the commit operation in any run is non-empty. -/
theorem commit_messages_nonempty (env : Env) (g : Bool) (diff : List Char)
    (cred multi : Bool) (splits inputs : List (List Char))
    (H : ∀ n, clean_commit_message (env.responses n) ≠ []) :
    ((commitMsgs (mainRunFull env g diff cred multi splits inputs).events).all
      fun m => decide (m ≠ [])) = true := by
  cases multi with
  | false =>
    show ((commitMsgs (mainRun env g diff cred inputs).events).all
      fun m => decide (m ≠ [])) = true
    exact mainRun_commits_nonempty env g diff cred inputs H
  | true =>
    cases g with
    | false => simp [mainRunFull, commitMsgs]
    | true =>
      by_cases hdiff : diff = []
      · simp [mainRunFull, hdiff, commitMsgs]
      by_cases hcred : detect_credentials diff ≠ [] ∧ cred = false
      · simp [mainRunFull, hdiff, hcred, commitMsgs]
      · have h := runMultiCommit_commits_nonempty env diff splits inputs H
        simpa [mainRunFull, hdiff, hcred, commitMsgs] using h

/-- Witness for the amended C1 at a concrete multi-commit run: the
summarize choice generates once, then apply commits the suggestion. -/
theorem commit_messages_nonempty_witness :
    ((commitMsgs (mainRunFull featEnv true "+x".data true true
        ["split one".data] ["u".data, "a".data]).events).all
      fun m => decide (m ≠ [])) = true :=
  commit_messages_nonempty featEnv true "+x".data true true
    ["split one".data] ["u".data, "a".data]
    (fun _ => show clean_commit_message "feat: x".data ≠ [] by decide)

/-- Claim C2: on a message with neither `<think>` tags nor a run of three or
more newlines, `clean_commit_message` is exactly `str.strip`; on the spec's
example, the think block (and the newline run left behind) disappears; a
four-newline run collapses to a single blank line. -/
theorem clean_commit_message_spec (m : List Char)
    (h1 : occursIn thinkOpen m = false) (h2 : noBlankRun m = true) :
    clean_commit_message m = pyStrip m ∧
    clean_commit_message "<think>x</think>\nfeat: y".data = "feat: y".data ∧
    clean_commit_message "a\n\n\n\nb".data = "a\n\nb".data := by
  refine ⟨?_, by decide, by decide⟩
  unfold clean_commit_message
  rw [removeThink_of_not_occurs h1, collapseBlank_of_noBlankRun h2]

/-- Witness for C2 at a concrete tag-free, blank-run-free message. -/
theorem clean_commit_message_spec_witness :
    clean_commit_message "fix: z".data = pyStrip "fix: z".data ∧
    clean_commit_message "<think>x</think>\nfeat: y".data = "feat: y".data ∧
    clean_commit_message "a\n\n\n\nb".data = "a\n\nb".data :=
  clean_commit_message_spec "fix: z".data (by decide) (by decide)

/-- Claim C3: with an empty staged diff, `main` exits with code 0 and the
event trace is empty — in particular no provider is constructed
(`setupProvider` never happens) and no provider call is made. -/
theorem empty_diff_exits_zero (env : Env) (cred : Bool)
    (inputs : List (List Char)) :
    mainRun env true [] cred inputs = ⟨Outcome.exit 0, [], none⟩ := rfl

/-- Claim C4: a regenerate press performs exactly one additional provider
call, whose diff argument is the diff threaded through the loop, and the
displayed suggestion is replaced wholesale by the cleaned new response
(the remaining loop continues from that new message with no history);
moreover in every run each provider call receives exactly the diff fetched
at process start. -/
theorem regenerate_one_call_same_diff (env : Env) (diff raw : List Char)
    (rest inputs : List (List Char)) (msg : List Char) (p e : Nat)
    (h : pyLower raw = "r".data) :
    runLoop env diff (raw :: rest) msg p e =
      ⟨(runLoop env diff rest (clean_commit_message (env.responses p)) (p + 1) e).msg,
       Event.providerCall diff ::
         (runLoop env diff rest (clean_commit_message (env.responses p)) (p + 1) e).events,
       (runLoop env diff rest (clean_commit_message (env.responses p)) (p + 1) e).ending,
       (runLoop env diff rest (clean_commit_message (env.responses p)) (p + 1) e).pIdx,
       (runLoop env diff rest (clean_commit_message (env.responses p)) (p + 1) e).eIdx⟩ ∧
    ((providerDiffs (runLoop env diff inputs msg p e).events).all
      fun d => decide (d = diff)) = true :=
  ⟨runLoop_cons_r env diff raw rest msg p e h,
   runLoop_providerDiffs env diff inputs msg p e⟩

/-- Witness for C4 at a concrete regenerate-then-apply run. -/
theorem regenerate_one_call_same_diff_witness :
    runLoop featEnv "+x".data ["r".data] "m".data 1 0 =
      ⟨(runLoop featEnv "+x".data []
          (clean_commit_message (featEnv.responses 1)) 2 0).msg,
       Event.providerCall "+x".data ::
         (runLoop featEnv "+x".data []
           (clean_commit_message (featEnv.responses 1)) 2 0).events,
       (runLoop featEnv "+x".data []
         (clean_commit_message (featEnv.responses 1)) 2 0).ending,
       (runLoop featEnv "+x".data []
         (clean_commit_message (featEnv.responses 1)) 2 0).pIdx,
       (runLoop featEnv "+x".data []
         (clean_commit_message (featEnv.responses 1)) 2 0).eIdx⟩ ∧
    ((providerDiffs (runLoop featEnv "+x".data ["r".data, "a".data]
        "m".data 1 0).events).all
      fun d => decide (d = "+x".data)) = true :=
  regenerate_one_call_same_diff featEnv "+x".data "r".data []
    ["r".data, "a".data] "m".data 1 0 (by decide)

/-- Claim C5: `detect_credentials` flags the added line
`API_KEY=sk-abcdef1234567890` (producing exactly one warning naming that
line) and produces no warning for the added line `def test_function():`. -/
theorem detect_credentials_examples :
    detect_credentials "+API_KEY=sk-abcdef1234567890".data
        = [warnText ++ "API_KEY=sk-abcdef1234567890".data] ∧
    detect_credentials "+def test_function():".data = [] :=
  ⟨by decide, by decide⟩

/-- Claim C6: the apply choice commits exactly the currently displayed
message (character for character) and terminates the interaction loop,
ignoring any further queued input. -/
theorem apply_commits_displayed_message (env : Env) (diff raw : List Char)
    (rest : List (List Char)) (msg : List Char) (p e : Nat)
    (h : pyLower raw = "a".data) :
    runLoop env diff (raw :: rest) msg p e =
      ⟨msg, [Event.commitCall msg], LoopEnd.finished "a".data, p, e⟩ :=
  runLoop_cons_a env diff raw rest msg p e h

/-- Witness for C6 at a concrete run with queued input after the apply. -/
theorem apply_commits_displayed_message_witness :
    runLoop featEnv "+x".data ["a".data, "q".data] "feat: x".data 1 0 =
      ⟨"feat: x".data, [Event.commitCall "feat: x".data],
       LoopEnd.finished "a".data, 1, 0⟩ :=
  apply_commits_displayed_message featEnv "+x".data "a".data ["q".data]
    "feat: x".data 1 0 (by decide)

/-- Claim C7: when the interaction loop ends with the quit choice, no
commit operation was invoked anywhere in the run and the process exits
with code 0. -/
theorem quit_no_commit_exit_zero (env : Env) (g : Bool) (diff : List Char)
    (cred : Bool) (inputs : List (List Char))
    (h : (mainRun env g diff cred inputs).ending
        = some (LoopEnd.finished "q".data)) :
    (mainRun env g diff cred inputs).outcome = Outcome.exit 0 ∧
      commitMsgs (mainRun env g diff cred inputs).events = [] :=
  mainRun_quit env g diff cred inputs h

/-- Witness for C7 at a concrete run that quits after an invalid input. -/
theorem quit_no_commit_exit_zero_witness :
    (mainRun featEnv true "+x".data true ["x".data, "q".data]).outcome
        = Outcome.exit 0 ∧
      commitMsgs (mainRun featEnv true "+x".data true
        ["x".data, "q".data]).events = [] :=
  quit_no_commit_exit_zero featEnv true "+x".data true ["x".data, "q".data]
    (by decide)

/-- Claim C8, counterexample: the raw input `"A"` is none of `"a"`, `"e"`,
`"r"`, `"q"`, yet — because `main` lower-cases the input before
dispatching — it triggers the apply branch: the loop terminates and a
commit is invoked, refuting the claim as stated. -/
theorem uppercase_input_commits :
    (("A".data : List Char) ≠ "a".data ∧ ("A".data : List Char) ≠ "e".data ∧
     ("A".data : List Char) ≠ "r".data ∧ ("A".data : List Char) ≠ "q".data) ∧
    (runLoop featEnv "+x".data ["A".data] "feat: x".data 1 0).ending
        = LoopEnd.finished "a".data ∧
    commitMsgs (runLoop featEnv "+x".data ["A".data]
        "feat: x".data 1 0).events = ["feat: x".data] :=
  ⟨by decide, by decide, by decide⟩

/-- Claim C8 (amended): for every raw input whose lower-cased form is none
of `"a"`, `"e"`, `"r"`, `"q"`, the step neither terminates nor commits:
the loop continues on the remaining inputs with the displayed message,
provider index and editor index all unchanged. -/
theorem invalid_input_reprompts_unchanged (env : Env) (diff raw : List Char)
    (rest : List (List Char)) (msg : List Char) (p e : Nat)
    (h1 : pyLower raw ≠ "a".data) (h2 : pyLower raw ≠ "e".data)
    (h3 : pyLower raw ≠ "r".data) (h4 : pyLower raw ≠ "q".data) :
    runLoop env diff (raw :: rest) msg p e = runLoop env diff rest msg p e :=
  runLoop_cons_invalid env diff raw rest msg p e h1 h2 h3 h4

/-- Witness for the amended C8 at the concrete invalid input `"x"`. -/
theorem invalid_input_reprompts_unchanged_witness :
    runLoop featEnv "+x".data ["x".data, "q".data] "m".data 1 0 =
      runLoop featEnv "+x".data ["q".data] "m".data 1 0 :=
  invalid_input_reprompts_unchanged featEnv "+x".data "x".data ["q".data]
    "m".data 1 0 (by decide) (by decide) (by decide) (by decide)

/-- Claim C9: `detect_credentials` inspects exactly the added lines — the
lines starting with `+` but not `+++`, with the leading `+` removed — so a
diff none of whose lines is an added line yields no warnings, whatever
credential-shaped text its context, removed, or header lines contain. -/
theorem detect_credentials_only_added_lines (d : List Char)
    (h : ((d.splitOn '\n').all
        fun l => !("+".data.isPrefixOf l) || ("+++".data.isPrefixOf l)) = true) :
    detect_credentials d = [] ∧
    detect_credentials d = (addedLines d).filterMap
      (fun l => if hasCredMatch l then some (warnText ++ pyStrip l) else none) := by
  refine ⟨?_, rfl⟩
  have hfil : (d.splitOn '\n').filter
      (fun l => ("+".data.isPrefixOf l) && !("+++".data.isPrefixOf l)) = [] := by
    rw [List.filter_eq_nil_iff]
    intro l hl
    have hall := List.all_eq_true.mp h l hl
    cases hplus : "+".data.isPrefixOf l <;>
      cases ht : "+++".data.isPrefixOf l <;> simp_all
  unfold detect_credentials addedLines
  rw [hfil]
  rfl

/-- Witness for C9: a diff carrying the credential line only on a removed
line, a context line and a `+++` header produces no warnings. -/
theorem detect_credentials_only_added_lines_witness :
    detect_credentials
        "-API_KEY=sk-abcdef1234567890\n API_KEY=sk-abcdef1234567890\n+++ b/config.py".data
      = [] ∧
    detect_credentials
        "-API_KEY=sk-abcdef1234567890\n API_KEY=sk-abcdef1234567890\n+++ b/config.py".data
      = (addedLines
          "-API_KEY=sk-abcdef1234567890\n API_KEY=sk-abcdef1234567890\n+++ b/config.py".data).filterMap
        (fun l => if hasCredMatch l then some (warnText ++ pyStrip l) else none) :=
  detect_credentials_only_added_lines
    "-API_KEY=sk-abcdef1234567890\n API_KEY=sk-abcdef1234567890\n+++ b/config.py".data
    (by decide)

/-- Claim C10: writing provider/model rewrites only the lines starting with
`PROVIDER=`, `#PROVIDER=`, `MODEL=` or `#MODEL=` — position by position,
every other line of the file is unchanged (and lines are only appended,
never removed); writing the API key rewrites only the first line starting
with `API_KEY=` or `#API_KEY=` — every line at any other index is
unchanged, and lines are only appended. -/
theorem env_saves_preserve_other_lines (content provider model api_key : List Char)
    (hp : '\n' ∉ provider) (hm : '\n' ∉ model) (hk : '\n' ∉ api_key) :
    (((content.splitOn '\n').zip
        ((save_provider_model_pair provider model content).splitOn '\n')).all
      fun pr => isProvLine pr.1 || isModelLine pr.1 || decide (pr.1 = pr.2)) = true ∧
    (content.splitOn '\n').length ≤
      ((save_provider_model_pair provider model content).splitOn '\n').length ∧
    ((List.range (content.splitOn '\n').length).all
      fun i => decide (firstIdxAK (content.splitOn '\n') = some i) ||
        decide ((content.splitOn '\n')[i]? =
          ((save_api_key_to_env api_key content).splitOn '\n')[i]?)) = true ∧
    (content.splitOn '\n').length ≤
      ((save_api_key_to_env api_key content).splitOn '\n').length := by
  obtain ⟨appP, hP⟩ := save_pm_lines provider model content hp hm
  obtain ⟨appK, hK⟩ := save_ak_lines api_key content hk
  refine ⟨?_, ?_, ?_, ?_⟩
  · rw [hP]
    apply zip_map_append_all
    intro o
    by_cases h1 : isProvLine o = true
    · simp [h1]
    by_cases h2 : isModelLine o = true
    · simp [h1, h2]
    · simp [pmRewrite, h1, h2]
  · rw [hP, List.length_append, List.length_map]
    omega
  · rw [List.all_eq_true]
    intro i hi
    rw [List.mem_range] at hi
    by_cases hf : firstIdxAK (content.splitOn '\n') = some i
    · simp [hf]
    · have hlen : i < (replaceFirstAK api_key (content.splitOn '\n')).1.length := by
        rw [replaceFirstAK_length]
        exact hi
      have hgot : ((save_api_key_to_env api_key content).splitOn '\n')[i]? =
          (content.splitOn '\n')[i]? := by
        rw [hK, List.getElem?_append, if_pos hlen]
        exact replaceFirstAK_getElem api_key _ i hf
      simp [hgot]
  · rw [hK, List.length_append, replaceFirstAK_length]
    omega

/-- Witness for C10 at a concrete `.env` content holding unrelated lines
and both commented and plain keys. -/
theorem env_saves_preserve_other_lines_witness :
    ((("FOO=1\n#PROVIDER=a\nBAR=2\nAPI_KEY=old\nMODEL=m0".data : List Char).splitOn '\n').zip
        ((save_provider_model_pair "ollama".data "llama3".data
          "FOO=1\n#PROVIDER=a\nBAR=2\nAPI_KEY=old\nMODEL=m0".data).splitOn '\n')).all
      (fun pr => isProvLine pr.1 || isModelLine pr.1 || decide (pr.1 = pr.2)) = true ∧
    (("FOO=1\n#PROVIDER=a\nBAR=2\nAPI_KEY=old\nMODEL=m0".data : List Char).splitOn '\n').length ≤
      ((save_provider_model_pair "ollama".data "llama3".data
        "FOO=1\n#PROVIDER=a\nBAR=2\nAPI_KEY=old\nMODEL=m0".data).splitOn '\n').length ∧
    ((List.range (("FOO=1\n#PROVIDER=a\nBAR=2\nAPI_KEY=old\nMODEL=m0".data : List Char).splitOn '\n').length).all
      fun i => decide (firstIdxAK (("FOO=1\n#PROVIDER=a\nBAR=2\nAPI_KEY=old\nMODEL=m0".data : List Char).splitOn '\n') = some i) ||
        decide ((("FOO=1\n#PROVIDER=a\nBAR=2\nAPI_KEY=old\nMODEL=m0".data : List Char).splitOn '\n')[i]? =
          ((save_api_key_to_env "sk-new12".data
            "FOO=1\n#PROVIDER=a\nBAR=2\nAPI_KEY=old\nMODEL=m0".data).splitOn '\n')[i]?)) = true ∧
    (("FOO=1\n#PROVIDER=a\nBAR=2\nAPI_KEY=old\nMODEL=m0".data : List Char).splitOn '\n').length ≤
      ((save_api_key_to_env "sk-new12".data
        "FOO=1\n#PROVIDER=a\nBAR=2\nAPI_KEY=old\nMODEL=m0".data).splitOn '\n').length :=
  env_saves_preserve_other_lines
    "FOO=1\n#PROVIDER=a\nBAR=2\nAPI_KEY=old\nMODEL=m0".data
    "ollama".data "llama3".data "sk-new12".data
    (by decide) (by decide) (by decide)
